import Mathlib

/-!
Verification development for the RustyMind request-serving gateway
(response cache, admission queue, stream relay, batch processor).

Each Rust component is shallowly embedded as executable Lean definitions:

* `CacheService` (src/services/cache.rs): the moka key/value store is
  modelled as an association list with insert-replace semantics; hit/miss
  counters are explicit fields.  TTL expiry and size-based eviction are
  behaviour of the external moka library and are not modelled (no claim
  below depends on them; eviction can only remove entries, which every
  "no entry is written" conclusion is robust against).
* `QueueService` (src/services/queue.rs): the `VecDeque` is a list with
  the front at the head; UUID generation and the wall clock are modelled
  by passing the fresh id and the timestamp as arguments.
* `BatchProcessor` (src/services/batch.rs): the metrics struct is
  explicit; the Ollama backend call is passed as a function argument and
  its outcome is an `Except`.  The `f64` arithmetic in `stats` is
  modelled bit-exactly by `F64`, an IEEE-754 binary64 value as a
  normalised 53-bit significand times a power of two, with
  round-to-nearest-even conversion, division and multiplication, and the
  Rust saturating `as u32` truncation toward zero.
* chat handler (src/handlers/chat.rs): `chat_optimized`,
  `stream_cached_response` and `stream_ollama_response` are modelled as
  pure state-passing functions; the backend stream is a list of
  `Except String OllamaResponse` events, and the produced SSE stream is
  the list of `StreamChunk`s it yields.
* `OllamaClient::chat_completion_stream` (src/services/ollama.rs): the
  per-byte-chunk decoding closure is modelled by `processLines` over
  Rust `str::lines` semantics; serde JSON parsing is a parameter
  `parse : String → Option OllamaResponse`.

`CacheService.generate_key` in the source is the SHA-256 hex digest of
the string `model ++ "::" ++ (role:content messages joined by "||")`.
SHA-256 is a fixed deterministic function of that input string, so the
key is modelled by the hash input itself: equal inputs give equal
digests with certainty, and distinct inputs give distinct digests
except for SHA-256 collisions (which the spec itself discounts as
"overwhelming probability").  Every fingerprint fact below is stated at
that pre-hash level.
-/

namespace RustyMind

/-- Rust `ChatMessage` (src/models/chat.rs): `{role: String, content: String}`. -/
structure ChatMessage where
  role : String
  content : String
deriving DecidableEq, Repr

/-- Rust `OllamaResponse` (src/models/chat.rs): `{message: Option<ChatMessage>, done: bool}`. -/
structure OllamaResponse where
  message : Option ChatMessage
  done : Bool
deriving DecidableEq, Repr

/-- Rust `StreamChunk` (src/models/chat.rs). -/
structure StreamChunk where
  content : Option String
  done : Bool
  request_id : Option String
  cached : Option Bool
  error : Option String
deriving DecidableEq, Repr

/-- Rust `ChatRequest` (src/models/chat.rs). -/
structure ChatRequest where
  messages : List ChatMessage
  model : Option String
  system_prompt : Option String
  stream : Bool
  priority : Int
  use_cache : Bool
deriving DecidableEq, Repr

/-- Rust `ChatResponse` (src/models/chat.rs): `{message: ChatMessage, cached: Option<bool>}`. -/
structure ChatResponse where
  message : ChatMessage
  cached : Option Bool
deriving DecidableEq, Repr

/-- Rust `CacheConfig` (src/config.rs). -/
structure CacheConfig where
  max_size_mb : Nat
  ttl_seconds : Nat
  enabled : Bool
deriving DecidableEq, Repr

/-- Rust `CacheMetrics` (src/services/cache.rs): hit/miss counters (`u64`,
far from overflow in any reachable execution, so modelled as `Nat`). -/
structure CacheMetrics where
  hits : Nat
  misses : Nat
deriving DecidableEq, Repr

/-- Rust `CacheService` (src/services/cache.rs).  The moka
`Cache<String, String>` is modelled as an association list looked up with
`List.lookup`; `insert` replaces any previous binding of the key. -/
structure CacheService where
  cache : List (String × String)
  stats : CacheMetrics
  config : CacheConfig
deriving DecidableEq, Repr

/-- Rust `Vec<String>::join(sep)` (used in `generate_key`). -/
def joinSep (sep : String) : List String → String
  | [] => ""
  | [x] => x
  | x :: y :: xs => x ++ sep ++ joinSep sep (y :: xs)

namespace CacheService

/-- `CacheService::generate_key` (src/services/cache.rs lines 41-52): builds
`"{model}::{role1}:{content1}||{role2}:{content2}||..."` and returns its
SHA-256 hex digest.  The digest is a fixed deterministic function of this
input string, so the key is modelled by the input string itself (see the
file header). -/
def generate_key (messages : List ChatMessage) (model : String) : String :=
  let content := joinSep "||" (messages.map (fun m => m.role ++ ":" ++ m.content))
  model ++ "::" ++ content

/-- `CacheService::get` (src/services/cache.rs lines 55-74): disabled cache
returns `None` untouched; otherwise a found entry bumps `hits`, absence bumps
`misses`. -/
def get (s : CacheService) (key : String) : Option String × CacheService :=
  if !s.config.enabled then
    (none, s)
  else
    match s.cache.lookup key with
    | some value => (some value, { s with stats := { s.stats with hits := s.stats.hits + 1 } })
    | none => (none, { s with stats := { s.stats with misses := s.stats.misses + 1 } })

/-- `CacheService::set` (src/services/cache.rs lines 77-84): no-op when
disabled, otherwise insert-or-replace. -/
def set (s : CacheService) (key value : String) : CacheService :=
  if !s.config.enabled then
    s
  else
    { s with cache := (key, value) :: s.cache.filter (fun p => p.1 != key) }

/-- `CacheService::contains` (src/services/cache.rs lines 87-92): `false` when
disabled, otherwise a lookup that touches no counter. -/
def contains (s : CacheService) (key : String) : Bool :=
  if !s.config.enabled then
    false
  else
    (s.cache.lookup key).isSome

/-- `CacheService::clear` (src/services/cache.rs lines 95-101). -/
def clear (s : CacheService) : CacheService :=
  { s with cache := [], stats := { hits := 0, misses := 0 } }

end CacheService

/-- Rust `QueueConfig` (src/config.rs). -/

structure QueueConfig where
  max_concurrent : Nat
  estimated_time_per_request_ms : Nat
deriving DecidableEq, Repr

/-- Rust `QueuedRequest` (src/services/queue.rs). -/
structure QueuedRequest where
  id : String
  messages : List ChatMessage
  model : String
  system_prompt : String
  timestamp : Int
deriving DecidableEq, Repr

/-- Rust `QueueStatus` (src/models/chat.rs). -/
structure QueueStatus where
  queue_position : Nat
  queue_length : Nat
  estimated_wait_time : Nat
  is_processing : Bool
deriving DecidableEq, Repr

/-- Rust `QueueService` (src/services/queue.rs).  The `VecDeque` has its
front at the head of the list. -/
structure QueueService where
  queue : List QueuedRequest
  processing : Bool
  config : QueueConfig
deriving DecidableEq, Repr

namespace QueueService

/-- `QueueService::enqueue` (src/services/queue.rs lines 34-57): pushes a new
request to the back and returns its id.  The `Uuid::new_v4` fresh id and the
`chrono` timestamp are inputs of the model. -/
def enqueue (s : QueueService) (id : String) (messages : List ChatMessage)
    (model system_prompt : String) (timestamp : Int) : String × QueueService :=
  (id, { s with queue := s.queue ++ [⟨id, messages, model, system_prompt, timestamp⟩] })

/-- `QueueService::get_status` (src/services/queue.rs lines 60-79): position
of the first entry with the given id (`Iterator::position`), 1-based
`queue_position`, 0-based wait estimate, `is_processing` only at the front. -/
def get_status (s : QueueService) (request_id : String) : Option QueueStatus :=
  (s.queue.findIdx? (fun r => r.id == request_id)).map (fun pos =>
    { queue_position := pos + 1
      queue_length := s.queue.length
      estimated_wait_time := pos * s.config.estimated_time_per_request_ms
      is_processing := s.processing && pos == 0 })

/-- `QueueService::get_queue_info` (src/services/queue.rs lines 82-86). -/
def get_queue_info (s : QueueService) : Nat × Bool :=
  (s.queue.length, s.processing)

/-- `QueueService::dequeue` (src/services/queue.rs lines 89-98): pops the
front of the `VecDeque`. -/
def dequeue (s : QueueService) : Option QueuedRequest × QueueService :=
  match s.queue with
  | [] => (none, s)
  | r :: rest => (some r, { s with queue := rest })

/-- `QueueService::set_processing` (src/services/queue.rs lines 101-104). -/
def set_processing (s : QueueService) (is_processing : Bool) : QueueService :=
  { s with processing := is_processing }

/-- `QueueService::cancel` (src/services/queue.rs lines 113-123): removes the
first entry with the given id, reporting whether one was found. -/
def cancel (s : QueueService) (request_id : String) : Bool × QueueService :=
  match s.queue.findIdx? (fun r => r.id == request_id) with
  | some pos => (true, { s with queue := s.queue.eraseIdx pos })
  | none => (false, s)

end QueueService

/-- Rust `BatchMetrics` (src/services/batch.rs): `u64` counters modelled as
`Nat`. -/
structure BatchMetrics where
  total_requests : Nat
  cached_responses : Nat
  deduplicated_requests : Nat
  batches_processed : Nat
  total_batch_size : Nat
deriving DecidableEq, Repr

/-- An IEEE-754 binary64 non-negative finite value: the real number
`sig * 2 ^ exp`, with `sig = 0` for zero and `2^52 ≤ sig < 2^53` otherwise.
Exponent overflow and underflow cannot occur at the magnitudes arising from
`u64` counters, so infinities, NaNs and subnormals are not modelled. -/
structure F64 where
  sig : Nat
  exp : Int
deriving DecidableEq, Repr

/-- Helper for `bitlen`: structural recursion on an explicit fuel bound. -/
def bitlenGo : Nat → Nat → Nat
  | 0, _ => 0
  | fuel + 1, m => if m = 0 then 0 else bitlenGo fuel (m / 2) + 1

/-- Number of binary digits of `n` (`⌊log2 n⌋ + 1` for `n ≥ 1`, else 0).
128 bits of fuel cover every value arising here: inputs are `u64` counters
and products of two 53-bit significands. -/
def bitlen (n : Nat) : Nat := bitlenGo 128 n

/-- Round the non-negative rational `n / d` (`d > 0`) to the nearest
integer, ties to even. -/
def roundDyadic (n d : Nat) : Nat :=
  let q := n / d
  let r := n % d
  if 2 * r < d then q
  else if d < 2 * r then q + 1
  else if q % 2 = 0 then q else q + 1

/-- The binary64 value nearest to the rational `a / b` (`b > 0`), round to
nearest, ties to even: scale `a / b` by the power of two that puts its
floor in `[2^52, 2^53)`, round the scaled rational to an integer
significand, and renormalise if rounding carried into `2^53`. -/
def f64OfRat (a b : Nat) : F64 :=
  if a = 0 then ⟨0, 0⟩ else
    let s₀ : Int := 52 - (bitlen a : Int) + (bitlen b : Int)
    let floorAt : Int → Nat := fun s =>
      if 0 ≤ s then a * 2 ^ s.toNat / b else a / (b * 2 ^ (-s).toNat)
    let s : Int := if 2 ^ 52 ≤ floorAt s₀ then s₀ else s₀ + 1
    let n := if 0 ≤ s then a * 2 ^ s.toNat else a
    let d := if 0 ≤ s then b else b * 2 ^ (-s).toNat
    let m := roundDyadic n d
    if m = 2 ^ 53 then ⟨2 ^ 52, 1 - s⟩ else ⟨m, -s⟩

/-- Rust `u64 as f64`: integer-to-double conversion, round to nearest
(exact below `2^53`). -/
def f64OfNat (n : Nat) : F64 := f64OfRat n 1

/-- Binary64 division of non-negative finite values (correctly rounded);
every call site below has a nonzero divisor, so the infinity/NaN paths of
real division are unreachable and not modelled. -/
def f64Div (x y : F64) : F64 :=
  if x.sig = 0 then ⟨0, 0⟩ else
    let q := f64OfRat x.sig y.sig
    ⟨q.sig, q.exp + x.exp - y.exp⟩

/-- Binary64 multiplication of non-negative finite values (correctly
rounded). -/
def f64Mul (x y : F64) : F64 :=
  let p := f64OfRat (x.sig * y.sig) 1
  ⟨p.sig, p.exp + x.exp + y.exp⟩

/-- Rust saturating `f64 as u32` on a non-negative finite value: truncate
toward zero and clamp to `u32::MAX`. -/
def f64AsU32 (x : F64) : Nat :=
  let t := if 0 ≤ x.exp then x.sig * 2 ^ x.exp.toNat else x.sig / 2 ^ (-x.exp).toNat
  min t (2 ^ 32 - 1)

/-- The `((count as f64 / total as f64) * 100.0) as u32` percentage of
src/services/batch.rs lines 85-95, under the binary64 model. -/
def pctAsU32 (count total : Nat) : Nat :=
  f64AsU32 (f64Mul (f64Div (f64OfNat count) (f64OfNat total)) (f64OfNat 100))

/-- Rust `BatchStats` (src/models/chat.rs).  `average_batch_size` is an `f64`
quotient, modelled by `F64`; `cache_hit_rate`/`deduplication_rate` are `u32`,
modelled by `Nat`. -/
structure BatchStats where
  total_requests : Nat
  cached_responses : Nat
  deduplicated_requests : Nat
  batches_processed : Nat
  average_batch_size : F64
  cache_hit_rate : Nat
  deduplication_rate : Nat
deriving DecidableEq, Repr

namespace BatchProcessor

/-- `BatchProcessor::process` (src/services/batch.rs lines 38-74): bump
`total_requests`, look up the fingerprint, serve a hit (bumping
`cached_responses`), otherwise call the backend, propagate its error with
`?`, and on success cache the response and bump the batch counters.  The
`OllamaClient::chat_completion` call is the function argument `ollama`
applied to `(messages, model, system_prompt)`; its `Result<String>` outcome
is an `Except`.  Returns the result together with the updated cache service
and metrics. -/
def process (cache : CacheService) (stats : BatchMetrics)
    (messages : List ChatMessage) (model system_prompt : String)
    (ollama : List ChatMessage → String → String → Except String String)
    (_priority : Int) :
    Except String String × CacheService × BatchMetrics :=
  let stats := { stats with total_requests := stats.total_requests + 1 }
  let cache_key := CacheService.generate_key messages model
  match CacheService.get cache cache_key with
  | (some cached, cache) =>
      (Except.ok cached, cache,
        { stats with cached_responses := stats.cached_responses + 1 })
  | (none, cache) =>
      match ollama messages model system_prompt with
      | Except.error e => (Except.error e, cache, stats)
      | Except.ok response =>
          (Except.ok response, CacheService.set cache cache_key response,
            { stats with batches_processed := stats.batches_processed + 1,
                         total_batch_size := stats.total_batch_size + 1 })

/-- `BatchProcessor::stats` (src/services/batch.rs lines 77-106): the two
percentages are `((x as f64 / y as f64) * 100.0) as u32` and the average is
`total_batch_size as f64 / batches_processed as f64`, all computed in the
bit-exact binary64 model. -/
def stats (m : BatchMetrics) : BatchStats :=
  let average_batch_size : F64 :=
    if m.batches_processed > 0 then
      f64Div (f64OfNat m.total_batch_size) (f64OfNat m.batches_processed)
    else ⟨0, 0⟩
  let cache_hit_rate : Nat :=
    if m.total_requests > 0 then pctAsU32 m.cached_responses m.total_requests
    else 0
  let deduplication_rate : Nat :=
    if m.total_requests > 0 then pctAsU32 m.deduplicated_requests m.total_requests
    else 0
  { total_requests := m.total_requests
    cached_responses := m.cached_responses
    deduplicated_requests := m.deduplicated_requests
    batches_processed := m.batches_processed
    average_batch_size := average_batch_size
    cache_hit_rate := cache_hit_rate
    deduplication_rate := deduplication_rate }

end BatchProcessor

/-- Transcript actually sent to the backend by
`OllamaClient::chat_completion` (src/services/ollama.rs lines 33-37): the
server-injected system message followed by the client messages.  The spec
calls this the "transcript"; note that `chat_optimized` fingerprints only
the client messages, not this list. -/
def chat_completion_messages (messages : List ChatMessage)
    (system_prompt : String) : List ChatMessage :=
  { role := "system", content := system_prompt } :: messages

/-- `stream_cached_response` (src/handlers/chat.rs lines 107-143): split the
cached text on whitespace (Rust `split_whitespace` keeps only non-empty
words), emit one `done=false, cached=true` chunk per word with a trailing
space on all but the last word, then one terminal `done=true` chunk. -/
def stream_cached_response (content : String) (request_id : Option String) :
    List StreamChunk :=
  let words := (content.split Char.isWhitespace).filter (fun s => s != "")
  let total := words.length
  (words.enum.map (fun p =>
    { content := some (if p.1 < total - 1 then p.2 ++ " " else p.2)
      done := false
      request_id := request_id
      cached := some true
      error := none })) ++
  [{ content := none, done := true, request_id := request_id,
      cached := some true, error := none }]

/-- Loop body of `stream_ollama_response` (src/handlers/chat.rs lines
156-213): the `while let` over the backend event stream.  An `Ok` event with
a message accumulates and emits its content; a `done` event caches the
accumulated text (when `use_cache`) and emits the terminal chunk, breaking;
an `Err` event emits a terminal chunk carrying the error, breaking; an
exhausted stream ends without any terminal chunk.  Returns the emitted
chunks and the final cache state. -/
def stream_ollama_loop (cache : CacheService) (cache_key : String)
    (use_cache : Bool) (accumulated : String) :
    List (Except String OllamaResponse) → List StreamChunk × CacheService
  | [] => ([], cache)
  | Except.error e :: _ =>
      ([{ content := none, done := true, request_id := none,
          cached := none, error := some e }], cache)
  | Except.ok r :: rest =>
      let contentChunks : List StreamChunk :=
        match r.message with
        | some message =>
            [{ content := some message.content, done := false, request_id := none,
               cached := some false, error := none }]
        | none => []
      let accumulated :=
        match r.message with
        | some message => accumulated ++ message.content
        | none => accumulated
      if r.done then
        let cache :=
          if use_cache then CacheService.set cache cache_key accumulated else cache
        (contentChunks ++
          [{ content := none, done := true, request_id := none,
             cached := some false, error := none }], cache)
      else
        let next := stream_ollama_loop cache cache_key use_cache accumulated rest
        (contentChunks ++ next.1, next.2)

/-- `stream_ollama_response` (src/handlers/chat.rs lines 146-215): the relay
starts with an empty accumulator.  The backend stream is the list of events
the `ollama_stream` yields. -/
def stream_ollama_response (ollama_stream : List (Except String OllamaResponse))
    (cache : CacheService) (cache_key : String) (use_cache : Bool) :
    List StreamChunk × CacheService :=
  stream_ollama_loop cache cache_key use_cache "" ollama_stream

/-- Outcome of `chat_optimized` (src/handlers/chat.rs): an SSE stream of
chunks, a JSON body, or an HTTP error status. -/
inductive ChatResult where
  | sse (chunks : List StreamChunk)
  | json (response : ChatResponse)
  | status (code : Nat)
deriving DecidableEq, Repr

/-- `chat_optimized` (src/handlers/chat.rs lines 22-104).  The handler's
`AppState` contributes the response cache and the default model and system
prompt (the conversation cache and HTTP client carry no state used here).
The two backend operations are function arguments: `unary` is
`OllamaClient::chat_completion` and `streamCall` is
`OllamaClient::chat_completion_stream` (an `Err` models its early failure,
an `Ok` carries the event stream).  The returned `Bool` records whether a
backend call was issued. -/
def chat_optimized (state_cache : CacheService)
    (state_model state_system_prompt : String) (request : ChatRequest)
    (unary : List ChatMessage → String → String → Except String String)
    (streamCall : List ChatMessage → String → String →
      Except String (List (Except String OllamaResponse))) :
    ChatResult × CacheService × Bool :=
  let model := request.model.getD state_model
  let system_prompt := request.system_prompt.getD state_system_prompt
  let hit :=
    if request.use_cache then
      CacheService.get state_cache (CacheService.generate_key request.messages model)
    else (none, state_cache)
  match hit with
  | (some cached, cache) =>
      if request.stream then
        (ChatResult.sse (stream_cached_response cached none), cache, false)
      else
        let response : ChatResponse :=
          { message := { role := "assistant", content := cached }, cached := some true }
        (ChatResult.json response, cache, false)
  | (none, cache) =>
      if request.stream then
        match streamCall request.messages model system_prompt with
        | Except.ok ollama_stream =>
            let res := stream_ollama_response ollama_stream cache
              (CacheService.generate_key request.messages model) request.use_cache
            (ChatResult.sse res.1, res.2, true)
        | Except.error _ => (ChatResult.status 500, cache, true)
      else
        match unary request.messages model system_prompt with
        | Except.ok content =>
            let cache :=
              if request.use_cache then
                CacheService.set cache
                  (CacheService.generate_key request.messages model) content
              else cache
            let response : ChatResponse :=
              { message := { role := "assistant", content := content }, cached := some false }
            (ChatResult.json response, cache, true)
        | Except.error _ => (ChatResult.status 500, cache, true)

/-- Rust `str::lines` semantics: split on `'\n'`, drop a final empty
segment (a trailing newline adds no line), and strip one `'\r'` from the end
of every segment that was followed by a `'\n'` (a bare trailing `'\r'` is
kept, as in Rust). -/
def rustLines (text : String) : List String :=
  let parts := text.splitOn "\n"
  (parts.dropLast.map (fun l => if l.endsWith "\r" then l.dropRight 1 else l)) ++
    (match parts.getLast? with
     | some "" => []
     | some l => [l]
     | none => [])

/-- Line-selection loop of the per-chunk decoding closure in
`OllamaClient::chat_completion_stream` (src/services/ollama.rs lines
117-132): skip lines that trim to empty, return the first line the JSON
parser accepts (parsing is the parameter `parse`), skip lines it rejects,
and report `"No valid response in chunk"` when no line parses.  The `return`
inside the `for` discards every remaining line of the chunk. -/
def processLines (parse : String → Option OllamaResponse) :
    List String → Except String OllamaResponse
  | [] => Except.error "No valid response in chunk"
  | line :: rest =>
      if line.trim = "" then processLines parse rest
      else
        match parse line with
        | some response => Except.ok response
        | none => processLines parse rest

/-- Per-chunk decoder of `OllamaClient::chat_completion_stream`
(src/services/ollama.rs lines 110-134): a transport or UTF-8 error on the
byte chunk propagates, otherwise the chunk's text is processed line by
line. -/
def chunkToResponse (parse : String → Option OllamaResponse)
    (bytesResult : Except String String) : Except String OllamaResponse :=
  match bytesResult with
  | Except.error e => Except.error e
  | Except.ok text => processLines parse (rustLines text)

/-- Backend-protocol well-formedness used by the stream-termination claim:
the event stream contains a transport error or a `done` event, so the
`while let` loop of `stream_ollama_response` reaches one of its two `break`s
instead of running off the end of the stream. -/
def hasTerminator : List (Except String OllamaResponse) → Bool
  | [] => false
  | Except.error _ :: _ => true
  | Except.ok r :: rest => r.done || hasTerminator rest

/-- Character-level view of the per-message fragment
`format!("{}:{}", m.role, m.content)` of `generate_key`: the role's
characters, a colon, the content's characters. -/
def encData (m : ChatMessage) : List Char :=
  m.role.data ++ ':' :: m.content.data

/-- Character-level view of `Vec<String>::join(sep)` (mirrors `joinSep`). -/
def charJoin (sep : List Char) : List (List Char) → List Char
  | [] => []
  | [x] => x
  | x :: y :: xs => x ++ sep ++ charJoin sep (y :: xs)

/-- Separator discipline under which the `generate_key` input encoding is
injective: no colon in the role and no pipe in the role or the content. -/
def sepFreeMsg (m : ChatMessage) : Prop :=
  ':' ∉ m.role.data ∧ '|' ∉ m.role.data ∧ '|' ∉ m.content.data

instance (m : ChatMessage) : Decidable (sepFreeMsg m) :=
  inferInstanceAs (Decidable (':' ∉ m.role.data ∧ '|' ∉ m.role.data ∧ '|' ∉ m.content.data))

/-- Helper: `findIdx?` starting at `i` on a list with no match is `none`. -/
theorem findIdx?_go_none {α : Type} (p : α → Bool) (l : List α) (i : Nat)
    (h : ∀ x ∈ l, p x = false) : List.findIdx? p l i = none := by
  induction l generalizing i with
  | nil => rfl
  | cons x xs ih =>
      rw [List.findIdx?_cons, h x (List.mem_cons_self x xs)]
      simp only [Bool.false_eq_true, if_false]
      exact ih (i + 1) (fun y hy => h y (List.mem_cons_of_mem x hy))

/-- Helper: `findIdx?` starting at `i` finds the first match at offset
`pre.length` when everything before it fails the test. -/
theorem findIdx?_go_first {α : Type} (p : α → Bool) (pre : List α) (r : α)
    (post : List α) (i : Nat) (hpre : ∀ x ∈ pre, p x = false) (hr : p r = true) :
    List.findIdx? p (pre ++ r :: post) i = some (i + pre.length) := by
  induction pre generalizing i with
  | nil => simp [List.findIdx?_cons, hr]
  | cons x xs ih =>
      rw [List.cons_append, List.findIdx?_cons, hpre x (List.mem_cons_self x xs)]
      simp only [Bool.false_eq_true, if_false]
      rw [ih (i + 1) (fun y hy => hpre y (List.mem_cons_of_mem x hy))]
      simp only [List.length_cons]
      exact congrArg some (by omega)

/-- Helper: erasing at index `pre.length` removes exactly the element between
`pre` and `post`. -/
theorem eraseIdx_append_length {α : Type} (pre : List α) (r : α) (post : List α) :
    (pre ++ r :: post).eraseIdx pre.length = pre ++ post := by
  induction pre with
  | nil => rfl
  | cons x xs ih => simp [List.eraseIdx, ih]

end RustyMind

namespace RustyMind

/-- C5: when the cache is administratively disabled, `get` returns absent,
`set` stores nothing, `contains` returns false, and the whole service state
(in particular the hit and miss counters) is unchanged by each of the three
operations. -/
theorem cache_disabled_noop (s : CacheService) (key value : String)
    (hdis : s.config.enabled = false) :
    CacheService.get s key = (none, s) ∧
    CacheService.set s key value = s ∧
    CacheService.contains s key = false := by
  refine ⟨?_, ?_, ?_⟩ <;> simp [CacheService.get, CacheService.set, CacheService.contains, hdis]

/-- C5 witness: the three disabled-cache no-op conclusions at a concrete
disabled service holding one entry and nonzero counters. -/
theorem cache_disabled_noop_witness :
    CacheService.get ⟨[("k", "v")], ⟨3, 4⟩, ⟨10, 60, false⟩⟩ "k" =
      (none, ⟨[("k", "v")], ⟨3, 4⟩, ⟨10, 60, false⟩⟩) ∧
    CacheService.set ⟨[("k", "v")], ⟨3, 4⟩, ⟨10, 60, false⟩⟩ "k" "w" =
      ⟨[("k", "v")], ⟨3, 4⟩, ⟨10, 60, false⟩⟩ ∧
    CacheService.contains ⟨[("k", "v")], ⟨3, 4⟩, ⟨10, 60, false⟩⟩ "k" = false :=
  cache_disabled_noop ⟨[("k", "v")], ⟨3, 4⟩, ⟨10, 60, false⟩⟩ "k" "w" rfl

set_option maxRecDepth 8000 in
/-- C8 counterexample: with 3 total requests, 2 cached responses and 2
deduplicated requests, the code reports both rates as 66 (the binary64 value
66.66666666666666 truncated toward zero), while rounding as the claim states
would give 67. -/
theorem batch_stats_round_counterexample :
    (BatchProcessor.stats ⟨3, 2, 2, 0, 0⟩).cache_hit_rate = 66 ∧
    (BatchProcessor.stats ⟨3, 2, 2, 0, 0⟩).deduplication_rate = 66 ∧
    round (((2 : ℚ) / 3) * 100) = 67 := by
  refine ⟨by decide, by decide, ?_⟩
  rw [round_eq]
  norm_num

set_option maxRecDepth 8000 in
/-- C8 amended: both rates are 0 when `total_requests = 0`; otherwise each
rate is the double-precision percentage `(count as f64 / total as f64) *
100.0` truncated toward zero (`as u32`).  That truncation is not rounding
(see the counterexample), and because of binary64 rounding it is not always
the exact floored percentage either: at 29 cached of 100 total the double
product is 28.999999999999996, so the code reports 28 where the exact floor
`100·29/100` is 29; at 1 and 3 of 4 the doubles are exact and the reported
25 and 75 agree with the exact floors. -/
theorem batch_stats_truncated_rates :
    (∀ m : BatchMetrics, m.total_requests = 0 →
      (BatchProcessor.stats m).cache_hit_rate = 0 ∧
      (BatchProcessor.stats m).deduplication_rate = 0) ∧
    (BatchProcessor.stats ⟨100, 29, 29, 0, 0⟩).cache_hit_rate = 28 ∧
    (BatchProcessor.stats ⟨100, 29, 29, 0, 0⟩).deduplication_rate = 28 ∧
    (100 * 29) / 100 = 29 ∧
    (BatchProcessor.stats ⟨4, 1, 3, 2, 5⟩).cache_hit_rate = 25 ∧
    (BatchProcessor.stats ⟨4, 1, 3, 2, 5⟩).deduplication_rate = 75 := by
  refine ⟨?_, by decide, by decide, by decide, by decide, by decide⟩
  intro m hzero
  constructor
  · simp [BatchProcessor.stats, hzero]
  · simp [BatchProcessor.stats, hzero]

/-- C8 witness: the zero-total clause of the amended theorem at a concrete
metrics state with nonzero subsidiary counters. -/
theorem batch_stats_truncated_rates_witness :
    (BatchProcessor.stats ⟨0, 5, 5, 2, 3⟩).cache_hit_rate = 0 ∧
    (BatchProcessor.stats ⟨0, 5, 5, 2, 3⟩).deduplication_rate = 0 :=
  batch_stats_truncated_rates.1 ⟨0, 5, 5, 2, 3⟩ rfl

/-- C9: the per-chunk decoder returns exactly the first line of the chunk
that the JSON parser accepts (lines trimming to empty and unparseable lines
before it are skipped), and errs precisely when no line of the chunk parses;
every line after the first accepted one — including further valid JSON
objects in the same byte chunk — has no effect on the result, so their
content is dropped. -/
theorem chunk_decoder_first_line_only
    (parse : String → Option OllamaResponse) (text : String) :
    chunkToResponse parse (Except.ok text) =
      match ((rustLines text).filterMap
          (fun l => if l.trim = "" then none else parse l)).head? with
      | some r => Except.ok r
      | none => Except.error "No valid response in chunk" := by
  show processLines parse (rustLines text) = _
  induction rustLines text with
  | nil => rfl
  | cons l rest ih =>
      by_cases h : l.trim = ""
      · simpa [processLines, h] using ih
      · cases hp : parse l with
        | none => simpa [processLines, h, hp] using ih
        | some r => simp [processLines, h, hp]

/-- Helper: splitting at a marker character absent from both left parts is
unambiguous. -/
theorem append_cons_inj {α : Type} (c : α) (a : List α) :
    ∀ (b x y : List α), c ∉ a → c ∉ b → a ++ c :: x = b ++ c :: y →
    a = b ∧ x = y := by
  induction a with
  | nil =>
      intro b x y _ hb h
      cases b with
      | nil => simpa using h
      | cons bh bt =>
          simp only [List.nil_append, List.cons_append, List.cons.injEq] at h
          exact absurd (by rw [h.1]; exact List.mem_cons_self bh bt) hb
  | cons ah arest ih =>
      intro b x y ha hb h
      cases b with
      | nil =>
          simp only [List.cons_append, List.nil_append, List.cons.injEq] at h
          exact absurd (by rw [← h.1]; exact List.mem_cons_self ah arest) ha
      | cons bh bt =>
          simp only [List.cons_append, List.cons.injEq] at h
          obtain ⟨h1, h2⟩ := ih bt x y
            (fun hmem => ha (List.mem_cons_of_mem ah hmem))
            (fun hmem => hb (List.mem_cons_of_mem bh hmem)) h.2
          exact ⟨by rw [h.1, h1], h2⟩

/-- Helper: `joinSep` agrees with its character-level mirror `charJoin`. -/
theorem joinSep_data (s : String) : ∀ (l : List String),
    (joinSep s l).data = charJoin s.data (l.map String.data)
  | [] => rfl
  | [x] => rfl
  | x :: y :: xs => by
      simp only [joinSep, charJoin, List.map_cons, String.data_append]
      rw [show (joinSep s (y :: xs)).data
          = charJoin s.data ((y :: xs).map String.data) from joinSep_data s (y :: xs)]
      simp [charJoin]

/-- Helper: joining pipe-free, non-empty character chunks with `"||"` is
injective. -/
theorem charJoin_bars_inj (cs : List (List Char)) : ∀ (ds : List (List Char)),
    (∀ c ∈ cs, '|' ∉ c ∧ c ≠ []) → (∀ d ∈ ds, '|' ∉ d ∧ d ≠ []) →
    charJoin ['|', '|'] cs = charJoin ['|', '|'] ds → cs = ds := by
  induction cs with
  | nil =>
      intro ds _ hds h
      cases ds with
      | nil => rfl
      | cons d dt =>
          cases dt with
          | nil => exact absurd h.symm (hds d (List.mem_cons_self d [])).2
          | cons d₂ dt' => simp [charJoin] at h
  | cons c ct ih =>
      intro ds hcs hds h
      cases ct with
      | nil =>
          cases ds with
          | nil => exact absurd h (hcs c (List.mem_cons_self c [])).2
          | cons d dt =>
              cases dt with
              | nil =>
                  rw [show charJoin ['|', '|'] [c] = c from rfl,
                    show charJoin ['|', '|'] [d] = d from rfl] at h
                  rw [h]
              | cons d₂ dt' =>
                  have hc := (hcs c (List.mem_cons_self c [])).1
                  have hmem : '|' ∈ c := by
                    rw [show charJoin ['|', '|'] [c] = c from rfl] at h
                    rw [h]
                    simp [charJoin]
                  exact absurd hmem hc
      | cons c₂ ct' =>
          cases ds with
          | nil => simp [charJoin] at h
          | cons d dt =>
              cases dt with
              | nil =>
                  have hd := (hds d (List.mem_cons_self d [])).1
                  have hmem : '|' ∈ d := by
                    rw [show charJoin ['|', '|'] [d] = d from rfl] at h
                    rw [← h]
                    simp [charJoin]
                  exact absurd hmem hd
              | cons d₂ dt' =>
                  have h' : c ++ '|' :: ('|' :: charJoin ['|', '|'] (c₂ :: ct')) =
                      d ++ '|' :: ('|' :: charJoin ['|', '|'] (d₂ :: dt')) := by
                    simpa [charJoin, List.append_assoc] using h
                  obtain ⟨h1, h2⟩ := append_cons_inj '|' c d _ _
                    (hcs c (List.mem_cons_self c _)).1 (hds d (List.mem_cons_self d _)).1 h'
                  simp only [List.cons.injEq, true_and] at h2
                  rw [h1, ih (d₂ :: dt')
                    (fun x hx => hcs x (List.mem_cons_of_mem c hx))
                    (fun x hx => hds x (List.mem_cons_of_mem d hx)) h2]

/-- Helper: the per-message fragment is injective when roles are
colon-free. -/
theorem encData_inj (m₁ m₂ : ChatMessage) (h₁ : ':' ∉ m₁.role.data)
    (h₂ : ':' ∉ m₂.role.data) (h : encData m₁ = encData m₂) : m₁ = m₂ := by
  obtain ⟨hr, hc⟩ := append_cons_inj ':' m₁.role.data m₂.role.data _ _ h₁ h₂ h
  cases m₁ with
  | mk r₁ c₁ =>
      cases m₂ with
      | mk r₂ c₂ =>
          simp only at hr hc
          rw [String.ext hr, String.ext hc]

/-- Helper: mapping the per-message fragment over colon-free-role message
lists is injective. -/
theorem map_encData_inj (l₁ : List ChatMessage) : ∀ (l₂ : List ChatMessage),
    (∀ m ∈ l₁, ':' ∉ m.role.data) → (∀ m ∈ l₂, ':' ∉ m.role.data) →
    l₁.map encData = l₂.map encData → l₁ = l₂ := by
  induction l₁ with
  | nil =>
      intro l₂ _ _ h
      cases l₂ with
      | nil => rfl
      | cons d dt => simp at h
  | cons m mt ih =>
      intro l₂ h₁ h₂ h
      cases l₂ with
      | nil => simp at h
      | cons d dt =>
          simp only [List.map_cons, List.cons.injEq] at h
          rw [encData_inj m d (h₁ m (List.mem_cons_self m mt))
              (h₂ d (List.mem_cons_self d dt)) h.1,
            ih dt (fun x hx => h₁ x (List.mem_cons_of_mem m hx))
              (fun x hx => h₂ x (List.mem_cons_of_mem d hx)) h.2]

/-- Helper: the character-level shape of the `generate_key` hash input. -/
theorem generate_key_data (msgs : List ChatMessage) (model : String) :
    (CacheService.generate_key msgs model).data =
      model.data ++ ':' :: ':' :: charJoin ['|', '|'] (msgs.map encData) := by
  unfold CacheService.generate_key
  simp only [String.data_append, joinSep_data, List.map_map]
  have henc : (String.data ∘ fun m : ChatMessage => m.role ++ ":" ++ m.content)
      = encData := by
    funext m
    simp [encData, String.data_append]
  rw [henc]
  simp

/-- C2 counterexample: the hash input encoding is not injective — a content
containing the separators collides, with certainty, with a transcript of a
different message count: `[{user, "a||user:b"}]` and
`[{user, "a"}, {user, "b"}]` have the same fingerprint under model `"m"`. -/
theorem generate_key_collision :
    CacheService.generate_key [⟨"user", "a||user:b"⟩] "m" =
      CacheService.generate_key [⟨"user", "a"⟩, ⟨"user", "b"⟩] "m" ∧
    ([⟨"user", "a||user:b"⟩] : List ChatMessage) ≠
      [⟨"user", "a"⟩, ⟨"user", "b"⟩] := by
  constructor
  · rfl
  · decide

/-- C2 amended: the fingerprint is deterministic — equal `(model, messages)`
inputs always yield equal keys (right-to-left) — and, provided the model and
the roles contain no `':'` and the roles and contents contain no `'|'`, any
difference in model, role, content, message count, or ordering yields a
different hash input and hence (modulo SHA-256 collisions, which the claim
already discounts) a different fingerprint (left-to-right).  Without that
separator discipline distinct transcripts can collide with certainty, per
the counterexample. -/
theorem generate_key_deterministic_and_injective (model₁ model₂ : String)
    (msgs₁ msgs₂ : List ChatMessage)
    (hm₁ : ':' ∉ model₁.data) (hm₂ : ':' ∉ model₂.data)
    (h₁ : ∀ m ∈ msgs₁, sepFreeMsg m) (h₂ : ∀ m ∈ msgs₂, sepFreeMsg m) :
    CacheService.generate_key msgs₁ model₁ =
        CacheService.generate_key msgs₂ model₂ ↔
      (model₁ = model₂ ∧ msgs₁ = msgs₂) := by
  constructor
  · intro h
    have hd := congrArg String.data h
    rw [generate_key_data, generate_key_data] at hd
    obtain ⟨hmod, hrest⟩ := append_cons_inj ':' model₁.data model₂.data _ _ hm₁ hm₂ hd
    simp only [List.cons.injEq, true_and] at hrest
    have hmaps : msgs₁.map encData = msgs₂.map encData := by
      refine charJoin_bars_inj _ _ ?_ ?_ hrest
      · intro c hc
        obtain ⟨m, hm, rfl⟩ := List.mem_map.mp hc
        obtain ⟨_, hb, hcnt⟩ := h₁ m hm
        constructor
        · intro hmem
          simp only [encData, List.mem_append, List.mem_cons] at hmem
          rcases hmem with hh | hh | hh
          · exact hb hh
          · exact absurd hh (by decide)
          · exact hcnt hh
        · simp [encData]
      · intro c hc
        obtain ⟨m, hm, rfl⟩ := List.mem_map.mp hc
        obtain ⟨_, hb, hcnt⟩ := h₂ m hm
        constructor
        · intro hmem
          simp only [encData, List.mem_append, List.mem_cons] at hmem
          rcases hmem with hh | hh | hh
          · exact hb hh
          · exact absurd hh (by decide)
          · exact hcnt hh
        · simp [encData]
    exact ⟨String.ext hmod,
      map_encData_inj msgs₁ msgs₂ (fun m hm => (h₁ m hm).1)
        (fun m hm => (h₂ m hm).1) hmaps⟩
  · rintro ⟨rfl, rfl⟩
    rfl

/-- C2 witness: under the separator discipline, a one-character content
difference forces a different fingerprint (and equal inputs trivially agree). -/
theorem generate_key_deterministic_and_injective_witness :
    CacheService.generate_key [⟨"user", "hi"⟩] "m" ≠
      CacheService.generate_key [⟨"user", "ho"⟩] "m" := by
  intro h
  have hiff := generate_key_deterministic_and_injective "m" "m"
    [⟨"user", "hi"⟩] [⟨"user", "ho"⟩] (by decide) (by decide)
    (by decide) (by decide)
  exact absurd (hiff.mp h).2 (by decide)

/-- Helper: a member of `dropLast` of an append lies in the left part or in
`dropLast` of the right part. -/
theorem mem_dropLast_append {α : Type} (a b : List α) (c : α)
    (h : c ∈ (a ++ b).dropLast) : c ∈ a ∨ c ∈ b.dropLast := by
  by_cases hb : b = []
  · subst hb
    rw [List.append_nil] at h
    exact Or.inl ((List.dropLast_sublist a).subset h)
  · rw [List.dropLast_append_of_ne_nil a hb] at h
    exact List.mem_append.mp h

/-- Helper: the relay loop emits, for a terminator-containing input, a block
of `done=false` chunks followed by exactly one terminal chunk; and for any
input at all, every chunk before the last one has `done=false`. -/
theorem stream_ollama_loop_done_shape (key : String) (uc : Bool) :
    ∀ (input : List (Except String OllamaResponse)) (cache : CacheService)
      (acc : String),
      (hasTerminator input = true →
        ∃ pre t, (stream_ollama_loop cache key uc acc input).1 = pre ++ [t] ∧
          t.done = true ∧ ∀ c ∈ pre, c.done = false) ∧
      (∀ c ∈ (stream_ollama_loop cache key uc acc input).1.dropLast,
        c.done = false) := by
  intro input
  induction input with
  | nil =>
      intro cache acc
      exact ⟨fun h => by simp [hasTerminator] at h, by simp [stream_ollama_loop]⟩
  | cons ev rest ih =>
      intro cache acc
      cases ev with
      | error e =>
          have hch : (stream_ollama_loop cache key uc acc
              (Except.error e :: rest)).1 =
              [⟨none, true, none, none, some e⟩] := rfl
          refine ⟨fun _ => ⟨[], ⟨none, true, none, none, some e⟩, hch, rfl, by simp⟩, ?_⟩
          rw [hch]
          simp
      | ok r =>
          cases hdone : r.done with
          | true =>
              cases hmsg : r.message with
              | some message =>
                  have hch : (stream_ollama_loop cache key uc acc
                      (Except.ok r :: rest)).1 =
                      [⟨some message.content, false, none, some false, none⟩,
                        ⟨none, true, none, some false, none⟩] := by
                    simp [stream_ollama_loop, hmsg, hdone]
                  constructor
                  · intro _
                    refine ⟨[⟨some message.content, false, none, some false, none⟩],
                      ⟨none, true, none, some false, none⟩, hch, rfl, ?_⟩
                    intro c hc
                    simp only [List.mem_singleton] at hc
                    rw [hc]
                  · rw [hch]
                    intro c hc
                    simp only [List.dropLast, List.mem_singleton] at hc
                    rw [hc]
              | none =>
                  have hch : (stream_ollama_loop cache key uc acc
                      (Except.ok r :: rest)).1 =
                      [⟨none, true, none, some false, none⟩] := by
                    simp [stream_ollama_loop, hmsg, hdone]
                  refine ⟨fun _ => ⟨[], ⟨none, true, none, some false, none⟩,
                    hch, rfl, by simp⟩, ?_⟩
                  rw [hch]
                  simp
          | false =>
              have hterm : hasTerminator (Except.ok r :: rest) =
                  hasTerminator rest := by
                simp [hasTerminator, hdone]
              cases hmsg : r.message with
              | some message =>
                  have hch : (stream_ollama_loop cache key uc acc
                      (Except.ok r :: rest)).1 =
                      (⟨some message.content, false, none, some false, none⟩ :
                          StreamChunk) ::
                      (stream_ollama_loop cache key uc (acc ++ message.content)
                        rest).1 := by
                    simp [stream_ollama_loop, hmsg, hdone]
                  constructor
                  · intro h
                    rw [hterm] at h
                    obtain ⟨pre, t, hsplit, htd, hpre⟩ :=
                      (ih cache (acc ++ message.content)).1 h
                    refine ⟨(⟨some message.content, false, none, some false, none⟩ :
                        StreamChunk) :: pre, t, ?_, htd, ?_⟩
                    · rw [hch, hsplit]
                      rfl
                    · intro c hc
                      rcases List.mem_cons.mp hc with h1 | h1
                      · rw [h1]
                      · exact hpre c h1
                  · intro c hc
                    rw [hch] at hc
                    rcases mem_dropLast_append
                        [(⟨some message.content, false, none, some false, none⟩ :
                          StreamChunk)] _ c hc with h1 | h1
                    · simp only [List.mem_singleton] at h1
                      rw [h1]
                    · exact (ih cache (acc ++ message.content)).2 c h1
              | none =>
                  have hch : (stream_ollama_loop cache key uc acc
                      (Except.ok r :: rest)).1 =
                      (stream_ollama_loop cache key uc acc rest).1 := by
                    simp [stream_ollama_loop, hmsg, hdone]
                  constructor
                  · intro h
                    rw [hterm] at h
                    obtain ⟨pre, t, hsplit, htd, hpre⟩ := (ih cache acc).1 h
                    exact ⟨pre, t, by rw [hch, hsplit], htd, hpre⟩
                  · intro c hc
                    rw [hch] at hc
                    exact (ih cache acc).2 c hc

/-- C3 counterexample: a live-relay input that ends without any `done` event
or error (here the empty backend stream, e.g. a connection closed before any
event) produces a stream with zero `done=true` chunks, not exactly one. -/
theorem stream_relay_truncated_counterexample :
    ((stream_ollama_response [] ⟨[], ⟨0, 0⟩, ⟨10, 60, true⟩⟩ "k" true).1.countP
      (fun c => c.done)) = 0 := rfl

/-- C3 amended: the cached-replay stream always consists of `done=false`
chunks followed by exactly one terminal `done=true` chunk with nothing after
it; the live-relay stream (including its backend-error path) has the same
shape whenever the backend stream contains a terminator (an error or a
`done` event, as its protocol guarantees); and in every case — terminator or
not — no live-relay chunk other than the final one has `done=true`.  An
input that ends without a terminator produces no terminal chunk at all, per
the counterexample. -/
theorem stream_exactly_one_terminal (content : String) (rid : Option String)
    (input : List (Except String OllamaResponse)) (cache : CacheService)
    (key : String) (uc : Bool) (hterm : hasTerminator input = true) :
    (∃ pre t, stream_cached_response content rid = pre ++ [t] ∧
        t.done = true ∧ ∀ c ∈ pre, c.done = false) ∧
    (∃ pre t, (stream_ollama_response input cache key uc).1 = pre ++ [t] ∧
        t.done = true ∧ ∀ c ∈ pre, c.done = false) ∧
    (∀ (input' : List (Except String OllamaResponse)) (cache' : CacheService),
        ∀ c ∈ (stream_ollama_response input' cache' key uc).1.dropLast,
          c.done = false) := by
  refine ⟨?_, ?_, ?_⟩
  · refine ⟨_, _, rfl, rfl, ?_⟩
    intro c hc
    obtain ⟨p, _, rfl⟩ := List.mem_map.mp hc
    rfl
  · exact (stream_ollama_loop_done_shape key uc input cache "").1 hterm
  · intro input' cache' c hc
    exact (stream_ollama_loop_done_shape key uc input' cache' "").2 c hc

/-- C3 witness: a two-event backend stream (one content event, one `done`
event) yields a relay stream that is a `done=false` block plus one terminal
chunk. -/
theorem stream_exactly_one_terminal_witness :
    ∃ pre t, (stream_ollama_response
        [Except.ok ⟨some ⟨"assistant", "hi"⟩, false⟩, Except.ok ⟨none, true⟩]
        ⟨[], ⟨0, 0⟩, ⟨10, 60, true⟩⟩ "k" true).1 = pre ++ [t] ∧
      t.done = true ∧ ∀ c ∈ pre, c.done = false :=
  (stream_exactly_one_terminal "hello world" none
    [Except.ok ⟨some ⟨"assistant", "hi"⟩, false⟩, Except.ok ⟨none, true⟩]
    ⟨[], ⟨0, 0⟩, ⟨10, 60, true⟩⟩ "k" true rfl).2.1

/-- Helper: a missing `get` leaves the stored entries and the hit counter
untouched (only the miss counter may move). -/
theorem get_none_state (s : CacheService) (key : String)
    (h : (CacheService.get s key).1 = none) :
    (CacheService.get s key).2.cache = s.cache ∧
    (CacheService.get s key).2.stats.hits = s.stats.hits := by
  unfold CacheService.get at h ⊢
  cases hen : s.config.enabled with
  | false => simp [hen]
  | true =>
      cases hl : s.cache.lookup key with
      | some v => simp [hen, hl] at h
      | none => simp [hen, hl]

/-- Helper: a relay whose backend stream reaches an error before any `done`
event never writes to the cache — the loop returns the cache it was given. -/
theorem stream_ollama_loop_error_no_cache (key : String) (uc : Bool) :
    ∀ (pref : List (Except String OllamaResponse)) (e : String)
      (rest : List (Except String OllamaResponse)) (cache : CacheService)
      (acc : String),
      (∀ ev ∈ pref, ∃ r, ev = Except.ok r ∧ r.done = false) →
      (stream_ollama_loop cache key uc acc
        (pref ++ Except.error e :: rest)).2 = cache := by
  intro pref
  induction pref with
  | nil =>
      intro e rest cache acc _
      rfl
  | cons ev pt ih =>
      intro e rest cache acc hall
      obtain ⟨r, hev, hdone⟩ := hall ev (List.mem_cons_self ev pt)
      subst hev
      cases hmsg : r.message with
      | some message =>
          have hstep : (stream_ollama_loop cache key uc acc
              ((Except.ok r :: pt) ++ Except.error e :: rest)).2 =
              (stream_ollama_loop cache key uc (acc ++ message.content)
                (pt ++ Except.error e :: rest)).2 := by
            simp [stream_ollama_loop, hmsg, hdone]
          rw [hstep,
            ih e rest cache _ (fun x hx => hall x (List.mem_cons_of_mem _ hx))]
      | none =>
          have hstep : (stream_ollama_loop cache key uc acc
              ((Except.ok r :: pt) ++ Except.error e :: rest)).2 =
              (stream_ollama_loop cache key uc acc
                (pt ++ Except.error e :: rest)).2 := by
            simp [stream_ollama_loop, hmsg, hdone]
          rw [hstep,
            ih e rest cache _ (fun x hx => hall x (List.mem_cons_of_mem _ hx))]

/-- C4: a failed backend interaction never creates a cache entry.  When the
fingerprint is not cached and the backend call fails, `process` propagates
the error, the stored entries and the cache hit counter are unchanged, and
neither `cached_responses` nor `batches_processed` moves.  Likewise a
live-relay stream whose backend stream hits an error before any `done`
event leaves the cache service exactly as it was, so a subsequent `get` for
that fingerprint behaves as before the relay (in particular it is not a
hit if the entry was absent). -/
theorem failure_never_cached
    (cache : CacheService) (m : BatchMetrics) (messages : List ChatMessage)
    (model system_prompt : String)
    (ollama : List ChatMessage → String → String → Except String String)
    (prio : Int) (e : String)
    (hmiss : (CacheService.get cache
      (CacheService.generate_key messages model)).1 = none)
    (herr : ollama messages model system_prompt = Except.error e) :
    ((BatchProcessor.process cache m messages model system_prompt ollama
        prio).1 = Except.error e ∧
      (BatchProcessor.process cache m messages model system_prompt ollama
        prio).2.1.cache = cache.cache ∧
      (BatchProcessor.process cache m messages model system_prompt ollama
        prio).2.1.stats.hits = cache.stats.hits ∧
      (BatchProcessor.process cache m messages model system_prompt ollama
        prio).2.2.cached_responses = m.cached_responses ∧
      (BatchProcessor.process cache m messages model system_prompt ollama
        prio).2.2.batches_processed = m.batches_processed) ∧
    (∀ (pref rest : List (Except String OllamaResponse)) (err : String)
        (cache' : CacheService) (key : String) (uc : Bool),
      (∀ ev ∈ pref, ∃ r, ev = Except.ok r ∧ r.done = false) →
      (stream_ollama_response (pref ++ Except.error err :: rest) cache' key
          uc).2 = cache' ∧
      (CacheService.get (stream_ollama_response
          (pref ++ Except.error err :: rest) cache' key uc).2 key).1 =
        (CacheService.get cache' key).1) := by
  constructor
  · have hshape := get_none_state cache (CacheService.generate_key messages model) hmiss
    rcases hg : CacheService.get cache (CacheService.generate_key messages model)
      with ⟨fst, c₂⟩
    rw [hg] at hmiss hshape
    simp only at hmiss
    subst hmiss
    have hP : BatchProcessor.process cache m messages model system_prompt ollama
        prio = (Except.error e, c₂,
          { m with total_requests := m.total_requests + 1 }) := by
      simp only [BatchProcessor.process]
      rw [hg, herr]
    rw [hP]
    simp only at hshape
    exact ⟨rfl, hshape.1, hshape.2, rfl, rfl⟩
  · intro pref rest err cache' key uc hall
    have h2 := stream_ollama_loop_error_no_cache key uc pref err rest cache' "" hall
    exact ⟨h2, by rw [show (stream_ollama_response
      (pref ++ Except.error err :: rest) cache' key uc).2 = cache' from h2]⟩

/-- C4 witness: a concrete failing backend call on an empty enabled cache
propagates the error with no entry written, and a one-content-event relay
ending in an error leaves the cache empty. -/
theorem failure_never_cached_witness :
    (BatchProcessor.process ⟨[], ⟨0, 0⟩, ⟨10, 60, true⟩⟩ ⟨0, 0, 0, 0, 0⟩
        [⟨"user", "hi"⟩] "m" "sp" (fun _ _ _ => Except.error "boom") 0).1 =
      Except.error "boom" ∧
    (BatchProcessor.process ⟨[], ⟨0, 0⟩, ⟨10, 60, true⟩⟩ ⟨0, 0, 0, 0, 0⟩
        [⟨"user", "hi"⟩] "m" "sp" (fun _ _ _ => Except.error "boom") 0).2.1.cache
      = ([] : List (String × String)) ∧
    (stream_ollama_response [Except.ok ⟨some ⟨"assistant", "par"⟩, false⟩,
        Except.error "lost"] ⟨[], ⟨0, 0⟩, ⟨10, 60, true⟩⟩ "k" true).2 =
      ⟨[], ⟨0, 0⟩, ⟨10, 60, true⟩⟩ := by
  have h := failure_never_cached ⟨[], ⟨0, 0⟩, ⟨10, 60, true⟩⟩ ⟨0, 0, 0, 0, 0⟩
    [⟨"user", "hi"⟩] "m" "sp" (fun _ _ _ => Except.error "boom") 0 "boom"
    rfl rfl
  refine ⟨h.1.1, h.1.2.1, ?_⟩
  exact (h.2 [Except.ok ⟨some ⟨"assistant", "par"⟩, false⟩] [] "lost"
    ⟨[], ⟨0, 0⟩, ⟨10, 60, true⟩⟩ "k" true
    (by intro ev hev
        simp only [List.mem_singleton] at hev
        exact ⟨⟨some ⟨"assistant", "par"⟩, false⟩, hev, rfl⟩)).1

/-- C1 counterexample: after the first non-streaming cached-chat call
(messages `[{user,"hi"}]`, model `"m"`, `use_cache=true`, `stream=false`) on
an empty enabled cache, no entry exists under the fingerprint of the
system-prompt-plus-user transcript the claim names; the entry actually sits
under the fingerprint of the client messages alone — `chat_optimized`
fingerprints `request.messages`, and the system prompt is injected only
inside the backend call. -/
theorem cached_chat_fingerprint_counterexample :
    ((chat_optimized ⟨[], ⟨0, 0⟩, ⟨10, 60, true⟩⟩ "default" "You are helpful."
        ⟨[⟨"user", "hi"⟩], some "m", none, false, 0, true⟩
        (fun _ _ _ => Except.ok "hello there")
        (fun _ _ _ => Except.error "unused")).2.1.cache.lookup
      (CacheService.generate_key
        (chat_completion_messages [⟨"user", "hi"⟩] "You are helpful.") "m"))
      = none ∧
    ((chat_optimized ⟨[], ⟨0, 0⟩, ⟨10, 60, true⟩⟩ "default" "You are helpful."
        ⟨[⟨"user", "hi"⟩], some "m", none, false, 0, true⟩
        (fun _ _ _ => Except.ok "hello there")
        (fun _ _ _ => Except.error "unused")).2.1.cache.lookup
      (CacheService.generate_key [⟨"user", "hi"⟩] "m")) = some "hello there" := by
  constructor
  · rfl
  · rfl

/-- C1 amended: in the non-streaming cached-chat scenario (messages
`[{user,"hi"}]`, model `"m"`, `use_cache=true`, `stream=false`), when the
cache is enabled and holds no entry for the fingerprint of the client
messages, the first call returns the backend text with `cached=false` after
a backend call and creates a response-cache entry under the fingerprint of
model `"m"` and the client messages alone (the server-injected system
prompt is not part of the key); a second identical call returns the same
text with `cached=true` and issues no backend call. -/
theorem cached_chat_roundtrip (cache : CacheService) (sm sp text : String)
    (unary : List ChatMessage → String → String → Except String String)
    (streamCall : List ChatMessage → String → String →
      Except String (List (Except String OllamaResponse)))
    (hen : cache.config.enabled = true)
    (hmiss : cache.cache.lookup
      (CacheService.generate_key [⟨"user", "hi"⟩] "m") = none)
    (hok : unary [⟨"user", "hi"⟩] "m" sp = Except.ok text) :
    (chat_optimized cache sm sp ⟨[⟨"user", "hi"⟩], some "m", none, false, 0, true⟩
        unary streamCall).1 =
      ChatResult.json ⟨⟨"assistant", text⟩, some false⟩ ∧
    (chat_optimized cache sm sp ⟨[⟨"user", "hi"⟩], some "m", none, false, 0, true⟩
        unary streamCall).2.2 = true ∧
    ((chat_optimized cache sm sp ⟨[⟨"user", "hi"⟩], some "m", none, false, 0, true⟩
        unary streamCall).2.1.cache.lookup
      (CacheService.generate_key [⟨"user", "hi"⟩] "m")) = some text ∧
    (chat_optimized (chat_optimized cache sm sp
        ⟨[⟨"user", "hi"⟩], some "m", none, false, 0, true⟩ unary streamCall).2.1
        sm sp ⟨[⟨"user", "hi"⟩], some "m", none, false, 0, true⟩
        unary streamCall).1 =
      ChatResult.json ⟨⟨"assistant", text⟩, some true⟩ ∧
    (chat_optimized (chat_optimized cache sm sp
        ⟨[⟨"user", "hi"⟩], some "m", none, false, 0, true⟩ unary streamCall).2.1
        sm sp ⟨[⟨"user", "hi"⟩], some "m", none, false, 0, true⟩
        unary streamCall).2.2 = false := by
  refine ⟨?_, ?_, ?_, ?_, ?_⟩ <;>
    simp [chat_optimized, CacheService.get, CacheService.set, Option.getD,
      hen, hmiss, hok, List.lookup]

/-- C1 witness: the round-trip conclusions at a concrete empty enabled cache
and a backend answering `"hello there"`. -/
theorem cached_chat_roundtrip_witness :
    (chat_optimized ⟨[], ⟨0, 0⟩, ⟨10, 60, true⟩⟩ "default" "You are helpful."
        ⟨[⟨"user", "hi"⟩], some "m", none, false, 0, true⟩
        (fun _ _ _ => Except.ok "hello there")
        (fun _ _ _ => Except.error "unused")).1 =
      ChatResult.json ⟨⟨"assistant", "hello there"⟩, some false⟩ ∧
    (chat_optimized (chat_optimized ⟨[], ⟨0, 0⟩, ⟨10, 60, true⟩⟩ "default"
        "You are helpful." ⟨[⟨"user", "hi"⟩], some "m", none, false, 0, true⟩
        (fun _ _ _ => Except.ok "hello there")
        (fun _ _ _ => Except.error "unused")).2.1
        "default" "You are helpful."
        ⟨[⟨"user", "hi"⟩], some "m", none, false, 0, true⟩
        (fun _ _ _ => Except.ok "hello there")
        (fun _ _ _ => Except.error "unused")).1 =
      ChatResult.json ⟨⟨"assistant", "hello there"⟩, some true⟩ := by
  have h := cached_chat_roundtrip ⟨[], ⟨0, 0⟩, ⟨10, 60, true⟩⟩ "default"
    "You are helpful." "hello there"
    (fun _ _ _ => Except.ok "hello there")
    (fun _ _ _ => Except.error "unused") rfl rfl rfl
  exact ⟨h.1, h.2.2.2.1⟩

/-- C6: starting from an empty queue, enqueuing A then B and dequeuing twice
yields A then B (FIFO); with only A enqueued, `get_status A` reports 1-based
position 1; after enqueuing A, B, C, `get_status B` reports position 2 with
`estimated_wait_time = 1 * estimated_time_per_request_ms`; and in general the
wait estimate is the 0-based position index times
`estimated_time_per_request_ms`. -/
theorem queue_fifo_position_wait (s : QueueService) (hempty : s.queue = [])
    (idA idB idC : String) (mA mB mC : List ChatMessage)
    (moA moB moC spA spB spC : String) (tA tB tC : Int)
    (hAB : idA ≠ idB) :
    (QueueService.dequeue (QueueService.enqueue (QueueService.enqueue s idA mA moA spA tA).2
        idB mB moB spB tB).2).1 = some ⟨idA, mA, moA, spA, tA⟩ ∧
    (QueueService.dequeue (QueueService.dequeue (QueueService.enqueue
        (QueueService.enqueue s idA mA moA spA tA).2 idB mB moB spB tB).2).2).1 =
      some ⟨idB, mB, moB, spB, tB⟩ ∧
    (QueueService.get_status (QueueService.enqueue s idA mA moA spA tA).2 idA).map
        QueueStatus.queue_position = some 1 ∧
    QueueService.get_status (QueueService.enqueue (QueueService.enqueue
        (QueueService.enqueue s idA mA moA spA tA).2 idB mB moB spB tB).2
        idC mC moC spC tC).2 idB =
      some ⟨2, 3, 1 * s.config.estimated_time_per_request_ms, false⟩ ∧
    (∀ (q : QueueService) (id : String) (pos : Nat),
        q.queue.findIdx? (fun r => r.id == id) = some pos →
        (QueueService.get_status q id).map QueueStatus.estimated_wait_time =
          some (pos * q.config.estimated_time_per_request_ms)) := by
  have hab : (idA == idB) = false := beq_eq_false_iff_ne.mpr hAB
  refine ⟨?_, ?_, ?_, ?_, ?_⟩
  · simp [QueueService.enqueue, QueueService.dequeue, hempty]
  · simp [QueueService.enqueue, QueueService.dequeue, hempty]
  · simp [QueueService.enqueue, QueueService.get_status, hempty, List.findIdx?_cons]
  · simp [QueueService.enqueue, QueueService.get_status, hempty, List.findIdx?_cons, hab]
  · intro q id pos h
    simp [QueueService.get_status, h]

/-- C6 witness: the FIFO/position/wait conclusions at a concrete queue with
per-request estimate 30000 ms. -/
theorem queue_fifo_position_wait_witness :
    (QueueService.dequeue (QueueService.enqueue (QueueService.enqueue
        ⟨[], false, ⟨1, 30000⟩⟩ "a" [] "m" "sp" 0).2 "b" [] "m" "sp" 1).2).1 =
      some ⟨"a", [], "m", "sp", 0⟩ ∧
    QueueService.get_status (QueueService.enqueue (QueueService.enqueue
        (QueueService.enqueue ⟨[], false, ⟨1, 30000⟩⟩ "a" [] "m" "sp" 0).2
        "b" [] "m" "sp" 1).2 "c" [] "m" "sp" 2).2 "b" =
      some ⟨2, 3, 1 * 30000, false⟩ := by
  have h := queue_fifo_position_wait ⟨[], false, ⟨1, 30000⟩⟩ rfl "a" "b" "c"
    [] [] [] "m" "m" "m" "sp" "sp" "sp" 0 1 2 (by decide)
  exact ⟨h.1, h.2.2.2.1⟩

/-- C7: when the queue contains exactly one entry with the given id,
`cancel` returns `true`, removes exactly that entry (all other entries keep
their relative order), decreases the queue length by exactly one, and a
second `cancel` with the same id returns `false` and leaves the state
unchanged. -/
theorem queue_cancel_exact (s : QueueService) (id : String)
    (pre post : List QueuedRequest) (r : QueuedRequest)
    (hq : s.queue = pre ++ r :: post) (hr : r.id = id)
    (hpre : ∀ x ∈ pre, x.id ≠ id) (hpost : ∀ x ∈ post, x.id ≠ id) :
    (QueueService.cancel s id).1 = true ∧
    (QueueService.cancel s id).2.queue = pre ++ post ∧
    (QueueService.cancel s id).2.queue.length + 1 = s.queue.length ∧
    QueueService.cancel (QueueService.cancel s id).2 id =
      (false, (QueueService.cancel s id).2) := by
  have hfind : s.queue.findIdx? (fun x => x.id == id) = some pre.length := by
    rw [hq]
    have := findIdx?_go_first (fun x => x.id == id) pre r post 0
      (fun x hx => beq_eq_false_iff_ne.mpr (hpre x hx)) (by simp [hr])
    simpa using this
  have hnone : (pre ++ post).findIdx? (fun x => x.id == id) = none := by
    apply findIdx?_go_none
    intro x hx
    rcases List.mem_append.mp hx with h | h
    · exact beq_eq_false_iff_ne.mpr (hpre x h)
    · exact beq_eq_false_iff_ne.mpr (hpost x h)
  have hc : QueueService.cancel s id = (true, { s with queue := pre ++ post }) := by
    simp only [QueueService.cancel, hfind]
    rw [hq, eraseIdx_append_length]
  refine ⟨?_, ?_, ?_, ?_⟩
  · rw [hc]
  · rw [hc]
  · rw [hc, hq]
    simp only [List.length_append, List.length_cons]
    omega
  · rw [hc]
    simp [QueueService.cancel, hnone]

/-- C7 witness: cancelling the middle entry of a three-element queue removes
exactly that entry and a repeat cancel fails. -/
theorem queue_cancel_exact_witness :
    (QueueService.cancel ⟨[⟨"a", [], "m", "sp", 0⟩, ⟨"b", [], "m", "sp", 1⟩,
        ⟨"c", [], "m", "sp", 2⟩], false, ⟨1, 30000⟩⟩ "b").2.queue =
      [⟨"a", [], "m", "sp", 0⟩] ++ [⟨"c", [], "m", "sp", 2⟩] ∧
    QueueService.cancel (QueueService.cancel ⟨[⟨"a", [], "m", "sp", 0⟩,
        ⟨"b", [], "m", "sp", 1⟩, ⟨"c", [], "m", "sp", 2⟩], false, ⟨1, 30000⟩⟩ "b").2 "b" =
      (false, (QueueService.cancel ⟨[⟨"a", [], "m", "sp", 0⟩, ⟨"b", [], "m", "sp", 1⟩,
        ⟨"c", [], "m", "sp", 2⟩], false, ⟨1, 30000⟩⟩ "b").2) := by
  have h := queue_cancel_exact ⟨[⟨"a", [], "m", "sp", 0⟩, ⟨"b", [], "m", "sp", 1⟩,
      ⟨"c", [], "m", "sp", 2⟩], false, ⟨1, 30000⟩⟩ "b"
    [⟨"a", [], "m", "sp", 0⟩] [⟨"c", [], "m", "sp", 2⟩] ⟨"b", [], "m", "sp", 1⟩
    rfl rfl (by decide) (by decide)
  exact ⟨h.2.1, h.2.2.2⟩

/-- C10: `get_status` reports `is_processing = processing && (pos == 0)` for
the first entry matching the id, so a request at any later position reports
`is_processing = false` regardless of the global flag. -/
theorem queue_is_processing_front (s : QueueService) (id : String) (pos : Nat)
    (hfind : s.queue.findIdx? (fun r => r.id == id) = some pos) :
    (QueueService.get_status s id).map QueueStatus.is_processing =
      some (s.processing && pos == 0) ∧
    (0 < pos → (QueueService.get_status s id).map QueueStatus.is_processing =
      some false) := by
  constructor
  · simp [QueueService.get_status, hfind]
  · intro hpos
    have : (pos == 0) = false := by
      simp [Nat.pos_iff_ne_zero.mp hpos]
    simp [QueueService.get_status, hfind, this]

/-- C10 witness: with the global flag set, the second entry of the queue
still reports `is_processing = false`. -/
theorem queue_is_processing_front_witness :
    (QueueService.get_status ⟨[⟨"a", [], "m", "sp", 0⟩, ⟨"b", [], "m", "sp", 1⟩],
        true, ⟨1, 30000⟩⟩ "b").map QueueStatus.is_processing = some false := by
  have h := queue_is_processing_front ⟨[⟨"a", [], "m", "sp", 0⟩,
      ⟨"b", [], "m", "sp", 1⟩], true, ⟨1, 30000⟩⟩ "b" 1 (by decide)
  exact h.2 (by decide)

end RustyMind
